import Mathlib

/-!
Verification development for the bodhi companion-agent services.

The definitions below are a shallow embedding of the request/response
correlation layer, event dispatcher, liveness tracker, WebSocket connection
registry (src/services/central-agent/main.py) and the memory consolidation
sweeper (src/services/memory-manager/main.py).  Python dicts are modelled as
association lists with the usual unique-key discipline (assignment overwrites
every entry with the key, `pop`/`del` remove them), `asyncio.Future` slots as
`Option Json` cells (`none` = pending, `some v` = resolved), and calls into
external collaborators (Redis publish, Postgres/Qdrant writes, WebSocket
sends, `json.loads`) as explicit outcome parameters or oracle functions, since
their behaviour is environment-determined.
-/

/-- Model of a Python/JSON value as handled by `json.loads` / `json.dumps`.
Numbers are restricted to integers, which suffices for every payload the
claims exercise. -/
inductive Json where
  | null : Json
  | bool : Bool → Json
  | num : Int → Json
  | str : String → Json
  | arr : List Json → Json
  | obj : List (String × Json) → Json

/-- Escaping of one character inside a JSON string literal, as `json.dumps`
does for the characters the system ever produces. -/
def escapeJsonChar (c : Char) : String :=
  if c = '\\' then "\\\\" else if c = '"' then "\\\"" else String.singleton c

/-- Escape an entire string for embedding in a JSON string literal. -/
def escapeJson (s : String) : String :=
  String.join (s.data.map escapeJsonChar)

mutual

/-- Model of Python `json.dumps` with its default separators. -/
def Json.dumps : Json → String
  | .null => "null"
  | .bool true => "true"
  | .bool false => "false"
  | .num n => toString n
  | .str s => "\"" ++ escapeJson s ++ "\""
  | .arr xs => "[" ++ Json.dumpsList xs ++ "]"
  | .obj fs => "\x7b" ++ Json.dumpsFields fs ++ "\x7d"

/-- Serialisation of a JSON array body. -/
def Json.dumpsList : List Json → String
  | [] => ""
  | [x] => Json.dumps x
  | x :: y :: xs => Json.dumps x ++ ", " ++ Json.dumpsList (y :: xs)

/-- Serialisation of a JSON object body. -/
def Json.dumpsFields : List (String × Json) → String
  | [] => ""
  | [(k, v)] => "\"" ++ escapeJson k ++ "\": " ++ Json.dumps v
  | (k, v) :: f :: fs =>
      "\"" ++ escapeJson k ++ "\": " ++ Json.dumps v ++ ", " ++ Json.dumpsFields (f :: fs)

end

/-- Model of Python `dict.get(key)` on a parsed JSON object: the value of the
first binding of `key`, if any (parsed objects bind each key once). -/
def Json.getField : List (String × Json) → String → Option Json
  | [], _ => none
  | (k, v) :: fs, key => if k = key then some v else Json.getField fs key

/-!
## Python dicts with string keys

The services keep several mutable dicts (`pending_responses`,
`agent_last_seen`, `ws_clients`, and the Redis working-memory key space).
Each is modelled as a `List (String × β)`; the operations below are the dict
primitives the code uses: `get`, item assignment, `in`, and `del`/`pop`.
-/

/-- `d.get(key)` / `d[key]` lookup. -/
def keyLookup {β : Type} : List (String × β) → String → Option β
  | [], _ => none
  | (k, v) :: l, key => if k = key then some v else keyLookup l key

/-- Overwrite the value under a key that is present: every binding of `key`
is replaced (a dict holds one). -/
def keySet {β : Type} : List (String × β) → String → β → List (String × β)
  | [], _, _ => []
  | (k, w) :: l, key, v => (if k = key then (key, v) else (k, w)) :: keySet l key v

/-- `key in d`. -/
def keyMem {β : Type} : List (String × β) → String → Bool
  | [], _ => false
  | (k, _) :: l, key => if k = key then true else keyMem l key

/-- `del d[key]` / `d.pop(key, None)`: drop the binding (no-op if absent). -/
def keyErase {β : Type} : List (String × β) → String → List (String × β)
  | [], _ => []
  | (k, w) :: l, key => if k = key then keyErase l key else (k, w) :: keyErase l key

/-- `d[key] = v`: overwrite when present, append a new binding when absent
(Python dicts keep insertion order). -/
def keyAssign {β : Type} (l : List (String × β)) (key : String) (v : β) :
    List (String × β) :=
  if keyMem l key then keySet l key v else l ++ [(key, v)]

theorem keyLookup_keySet {β : Type} (l : List (String × β)) (key : String) (v : β) :
    keyLookup (keySet l key v) key = (keyLookup l key).map (fun _ => v) := by
  induction l with
  | nil => rfl
  | cons p l ih =>
      obtain ⟨k, w⟩ := p
      by_cases hk : k = key
      · have h1 : keySet ((k, w) :: l) key v = (key, v) :: keySet l key v := by
          simp only [keySet, if_pos hk]
        have h2 : keyLookup ((k, w) :: l) key = some w := by
          simp only [keyLookup, if_pos hk]
        have h3 : keyLookup ((key, v) :: keySet l key v) key = some v := by
          simp only [keyLookup, eq_self_iff_true, if_true]
        rw [h1, h2, h3]
        rfl
      · have h1 : keySet ((k, w) :: l) key v = (k, w) :: keySet l key v := by
          simp only [keySet, if_neg hk]
        have h2 : keyLookup ((k, w) :: l) key = keyLookup l key := by
          simp only [keyLookup, if_neg hk]
        have h3 : keyLookup ((k, w) :: keySet l key v) key
            = keyLookup (keySet l key v) key := by
          simp only [keyLookup, if_neg hk]
        rw [h1, h3, h2, ih]

theorem keyLookup_keySet_ne {β : Type} (l : List (String × β)) (key s : String)
    (v : β) (h : s ≠ key) : keyLookup (keySet l key v) s = keyLookup l s := by
  induction l with
  | nil => rfl
  | cons p l ih =>
      obtain ⟨k, w⟩ := p
      by_cases hk : k = key
      · have h1 : keySet ((k, w) :: l) key v = (key, v) :: keySet l key v := by
          simp only [keySet, if_pos hk]
        have h2 : keyLookup ((k, w) :: l) s = keyLookup l s := by
          simp only [keyLookup]
          rw [if_neg]
          rw [hk]
          exact Ne.symm h
        have h3 : keyLookup ((key, v) :: keySet l key v) s
            = keyLookup (keySet l key v) s := by
          simp only [keyLookup, if_neg (Ne.symm h)]
        rw [h1, h3, h2, ih]
      · have h1 : keySet ((k, w) :: l) key v = (k, w) :: keySet l key v := by
          simp only [keySet, if_neg hk]
        rw [h1]
        by_cases hs : k = s
        · have h2 : keyLookup ((k, w) :: keySet l key v) s = some w := by
            simp only [keyLookup, if_pos hs]
          have h3 : keyLookup ((k, w) :: l) s = some w := by
            simp only [keyLookup, if_pos hs]
          rw [h2, h3]
        · have h2 : keyLookup ((k, w) :: keySet l key v) s
              = keyLookup (keySet l key v) s := by
            simp only [keyLookup, if_neg hs]
          have h3 : keyLookup ((k, w) :: l) s = keyLookup l s := by
            simp only [keyLookup, if_neg hs]
          rw [h2, h3, ih]

theorem keyLookup_keyErase {β : Type} (l : List (String × β)) (key : String) :
    keyLookup (keyErase l key) key = none := by
  induction l with
  | nil => rfl
  | cons p l ih =>
      obtain ⟨k, w⟩ := p
      by_cases hk : k = key
      · have h1 : keyErase ((k, w) :: l) key = keyErase l key := by
          simp only [keyErase, if_pos hk]
        rw [h1, ih]
      · have h1 : keyErase ((k, w) :: l) key = (k, w) :: keyErase l key := by
          simp only [keyErase, if_neg hk]
        have h2 : keyLookup ((k, w) :: keyErase l key) key
            = keyLookup (keyErase l key) key := by
          simp only [keyLookup, if_neg hk]
        rw [h1, h2, ih]

theorem keyLookup_keyErase_ne {β : Type} (l : List (String × β)) (key s : String)
    (h : s ≠ key) : keyLookup (keyErase l key) s = keyLookup l s := by
  induction l with
  | nil => rfl
  | cons p l ih =>
      obtain ⟨k, w⟩ := p
      by_cases hk : k = key
      · have h1 : keyErase ((k, w) :: l) key = keyErase l key := by
          simp only [keyErase, if_pos hk]
        have h2 : keyLookup ((k, w) :: l) s = keyLookup l s := by
          simp only [keyLookup]
          rw [if_neg]
          rw [hk]
          exact Ne.symm h
        rw [h1, h2, ih]
      · have h1 : keyErase ((k, w) :: l) key = (k, w) :: keyErase l key := by
          simp only [keyErase, if_neg hk]
        rw [h1]
        by_cases hs : k = s
        · have h2 : keyLookup ((k, w) :: keyErase l key) s = some w := by
            simp only [keyLookup, if_pos hs]
          have h3 : keyLookup ((k, w) :: l) s = some w := by
            simp only [keyLookup, if_pos hs]
          rw [h2, h3]
        · have h2 : keyLookup ((k, w) :: keyErase l key) s
              = keyLookup (keyErase l key) s := by
            simp only [keyLookup, if_neg hs]
          have h3 : keyLookup ((k, w) :: l) s = keyLookup l s := by
            simp only [keyLookup, if_neg hs]
          rw [h2, h3, ih]

theorem keyLookup_isSome_of_keyMem {β : Type} (l : List (String × β))
    (key : String) (h : keyMem l key = true) : ∃ v, keyLookup l key = some v := by
  induction l with
  | nil => cases h
  | cons p l ih =>
      obtain ⟨k, w⟩ := p
      by_cases hk : k = key
      · exact ⟨w, by simp only [keyLookup, if_pos hk]⟩
      · have h' : keyMem l key = true := by
          simpa only [keyMem, if_neg hk] using h
        obtain ⟨v, hv⟩ := ih h'
        refine ⟨v, ?_⟩
        simp only [keyLookup, if_neg hk]
        exact hv

theorem keyLookup_append_fresh {β : Type} (l : List (String × β)) (key : String)
    (v : β) (h : keyMem l key = false) :
    keyLookup (l ++ [(key, v)]) key = some v := by
  induction l with
  | nil => simp only [List.nil_append, keyLookup, eq_self_iff_true, if_true]
  | cons p l ih =>
      obtain ⟨k, w⟩ := p
      by_cases hk : k = key
      · rw [keyMem, if_pos hk] at h
        cases h
      · have h' : keyMem l key = false := by
          simpa only [keyMem, if_neg hk] using h
        simp only [List.cons_append, keyLookup, if_neg hk]
        exact ih h'

theorem keyLookup_keyAssign {β : Type} (l : List (String × β)) (key : String)
    (v : β) : keyLookup (keyAssign l key v) key = some v := by
  by_cases h : keyMem l key
  · rw [keyAssign, if_pos h]
    obtain ⟨w, hw⟩ := keyLookup_isSome_of_keyMem l key h
    rw [keyLookup_keySet, hw]
    rfl
  · rw [keyAssign, if_neg h]
    exact keyLookup_append_fresh l key v (by simpa using h)

/-!
## Correlation table (`_state["pending_responses"]` in central-agent/main.py)

A dict from request id to an `asyncio.Future`.  A slot value of `none` models
a pending future (`not future.done()`), `some v` a resolved one.
-/

/-- The correlation table `_state["pending_responses"]`. -/
abbrev CorrTable := List (String × Option Json)

/-- Slot lookup, `_state["pending_responses"].get(request_id)`. -/
def lookupSlot (t : CorrTable) (rid : String) : Option (Option Json) :=
  keyLookup t rid

/-- Registration, `_state["pending_responses"][request_id] = future` (lines
291-292 and 379-380 of central-agent/main.py): stores a fresh pending slot,
overwriting any slot already present under that id.  The code performs no
duplicate check. -/
def corrRegister (t : CorrTable) (rid : String) : CorrTable :=
  keyAssign t rid none

/-- Removal, `_state["pending_responses"].pop(request_id, None)`: drops the
entry for `rid`; a no-op when absent. -/
def corrRemove (t : CorrTable) (rid : String) : CorrTable :=
  keyErase t rid

/-- Resolution (central-agent/main.py lines 129-131):
`future = pending.get(request_id); if future and not future.done():
future.set_result(value)`.  Absent or already-resolved slots are left
untouched; the function is total, so the operation never raises. -/
def resolve (t : CorrTable) (rid : String) (v : Json) : CorrTable :=
  match lookupSlot t rid with
  | some none => keySet t rid (some v)
  | _ => t

theorem lookupSlot_corrRemove (t : CorrTable) (r : String) :
    lookupSlot (corrRemove t r) r = none :=
  keyLookup_keyErase t r

theorem lookupSlot_corrRegister (t : CorrTable) (rid : String) :
    lookupSlot (corrRegister t rid) rid = some none :=
  keyLookup_keyAssign t rid none

/-- C1: resolving a correlation slot twice keeps the first value (after
`resolve r "A"` then `resolve r "B"` the waiter observes `"A"`), and a
`resolve` issued when the slot is absent from the table (in particular right
after `remove r`) or already resolved leaves the table untouched — a silent
no-op; `resolve` is a total function, hence never throws. -/
theorem c1_resolve_first_writer_wins (t : CorrTable) (r : String) (v w : Json) :
    (lookupSlot t r = some none →
      lookupSlot (resolve (resolve t r (Json.str "A")) r (Json.str "B")) r
        = some (some (Json.str "A")))
    ∧ (lookupSlot t r = none → resolve t r v = t)
    ∧ (lookupSlot t r = some (some w) → resolve t r v = t)
    ∧ resolve (corrRemove t r) r v = corrRemove t r := by
  refine ⟨?_, ?_, ?_, ?_⟩
  · intro h
    have h1 : resolve t r (Json.str "A") = keySet t r (some (Json.str "A")) := by
      simp [resolve, h]
    have h2 : lookupSlot (keySet t r (some (Json.str "A"))) r
        = some (some (Json.str "A")) := by
      show keyLookup (keySet t r (some (Json.str "A"))) r = _
      rw [keyLookup_keySet]
      rw [show keyLookup t r = some none from h]
      rfl
    rw [h1]
    simp [resolve, h2]
  · intro h; simp [resolve, h]
  · intro h; simp [resolve, h]
  · simp [resolve, lookupSlot_corrRemove]

/-- Witness for C1 on concrete tables: a slot for `"r"` resolved with `"A"`
then `"B"` holds `"A"`; resolving the absent id `"r"` in a table holding only
`"q"` changes nothing; resolving an already-resolved slot changes nothing. -/
theorem c1_witness :
    (lookupSlot (resolve (resolve [("r", (none : Option Json))] "r" (Json.str "A"))
        "r" (Json.str "B")) "r" = some (some (Json.str "A")))
    ∧ resolve [("q", (none : Option Json))] "r" (Json.str "C") = [("q", none)]
    ∧ resolve [("r", some (Json.str "A"))] "r" (Json.str "C")
        = [("r", some (Json.str "A"))] := by
  refine ⟨(c1_resolve_first_writer_wins [("r", none)] "r" (Json.str "C")
      (Json.str "A")).1 rfl, ?_, ?_⟩
  · exact (c1_resolve_first_writer_wins [("q", none)] "r" (Json.str "C")
      (Json.str "A")).2.1 rfl
  · exact (c1_resolve_first_writer_wins [("r", some (Json.str "A"))] "r" (Json.str "C")
      (Json.str "A")).2.2.1 rfl

/-!
## Event dispatcher reply branch (central-agent/main.py lines 121-131)

The pattern subscription delivers channels of shape
`language.response.<request_id>`.  `json.loads` is an external library call,
modelled by an explicit `parse` parameter; the `try`/`except` around
`json.loads(data)` and `payload.get(...)` is reflected in
`replyResponseText`: any parse failure, and any parsed payload that is not an
object (on which `payload.get` would raise `AttributeError`), falls back to
the raw payload string.
-/

/-- The reply-channel prefix `"language.response."`. -/
def replyChannelPrefix : String := "language.response."

/-- `request_id = channel[len("language.response."):]` (line 123): the id is
taken from the topic suffix, never from the body. -/
def extractRequestId (channel : String) : String :=
  channel.drop replyChannelPrefix.length

/-- Lines 124-128: the value delivered to the waiter.
`payload.get("response", json.dumps(payload))` when the body parses as an
object; the raw payload string when parsing (or the attribute access on a
non-object) raises. -/
def replyResponseText (parsed : Option Json) (data : String) : Json :=
  match parsed with
  | some (Json.obj fields) =>
      match Json.getField fields "response" with
      | some v => v
      | none => Json.str (Json.dumps (Json.obj fields))
  | _ => Json.str data

/-- One reply message through the dispatcher: extract the request id from the
channel suffix, compute the delivered value, and resolve the slot. -/
def dispatchReply (parse : String → Option Json) (t : CorrTable)
    (channel data : String) : CorrTable :=
  resolve t (extractRequestId channel) (replyResponseText (parse data) data)

theorem string_drop_append (p s : String) : (p ++ s).drop p.length = s := by
  rw [String.drop_eq]
  apply String.ext
  show (p ++ s).data.drop p.length = s.data
  rw [String.data_append]
  have h : p.length = p.data.length := rfl
  rw [h, List.drop_left]

theorem extractRequestId_append (rid : String) :
    extractRequestId (replyChannelPrefix ++ rid) = rid :=
  string_drop_append replyChannelPrefix rid

theorem lookupSlot_resolve_pending (t : CorrTable) (rid : String) (v : Json)
    (hslot : lookupSlot t rid = some none) :
    lookupSlot (resolve t rid v) rid = some (some v) := by
  simp only [resolve, hslot]
  show keyLookup (keySet t rid (some v)) rid = _
  rw [keyLookup_keySet]
  rw [show keyLookup t rid = some none from hslot]
  rfl

/-- C4: for a reply on a channel `language.response.<rid>` whose payload does
not parse as structured data, the waiter for `rid` — taken from the topic
suffix — receives exactly the raw payload string; the reply is resolved, not
dropped. -/
theorem c4_unparsable_reply_raw_fallback (parse : String → Option Json)
    (t : CorrTable) (rid data : String) (hparse : parse data = none)
    (hslot : lookupSlot t rid = some none) :
    lookupSlot (dispatchReply parse t (replyChannelPrefix ++ rid) data) rid
      = some (some (Json.str data)) := by
  unfold dispatchReply
  rw [extractRequestId_append, hparse]
  rw [show replyResponseText none data = Json.str data from rfl]
  exact lookupSlot_resolve_pending t rid (Json.str data) hslot

/-- Witness for C4: the literal payload `"not-json"` reaches the waiter for
`"abc123"` unchanged. -/
theorem c4_witness :
    lookupSlot (dispatchReply (fun _ => none) [("abc123", (none : Option Json))]
      (replyChannelPrefix ++ "abc123") "not-json") "abc123"
      = some (some (Json.str "not-json")) :=
  c4_unparsable_reply_raw_fallback (fun _ => none) [("abc123", none)]
    "abc123" "not-json" rfl rfl

/-- C10: a reply whose payload parses as a JSON object with no `"response"`
key delivers the re-serialisation (`json.dumps`) of the whole parsed payload
to the waiter — neither the raw payload string nor an error. -/
theorem c10_missing_response_key_dumps_payload (parse : String → Option Json)
    (t : CorrTable) (rid data : String) (fields : List (String × Json))
    (hparse : parse data = some (Json.obj fields))
    (hfield : Json.getField fields "response" = none)
    (hslot : lookupSlot t rid = some none) :
    lookupSlot (dispatchReply parse t (replyChannelPrefix ++ rid) data) rid
      = some (some (Json.str (Json.dumps (Json.obj fields)))) := by
  unfold dispatchReply
  rw [extractRequestId_append, hparse]
  have hrt : replyResponseText (some (Json.obj fields)) data
      = Json.str (Json.dumps (Json.obj fields)) := by
    simp only [replyResponseText, hfield]
  rw [hrt]
  exact lookupSlot_resolve_pending t rid _ hslot

/-- Witness for C10: payload parsing to the object with single field
`"other": 1` delivers the string rendering of that whole object. -/
theorem c10_witness :
    lookupSlot (dispatchReply (fun _ => some (Json.obj [("other", Json.num 1)]))
      [("abc", (none : Option Json))] (replyChannelPrefix ++ "abc")
      "\x7b\"other\":1\x7d") "abc"
      = some (some (Json.str "\x7b\"other\": 1\x7d")) := by
  have h := c10_missing_response_key_dumps_payload
    (fun _ => some (Json.obj [("other", Json.num 1)]))
    [("abc", none)] "abc" "\x7b\"other\":1\x7d" [("other", Json.num 1)] rfl rfl rfl
  rw [h]
  rfl

/-!
## POST /input — handle_input (central-agent/main.py lines 282-334)

Environment-dependent steps (Redis availability, the 2 s bus publish, the
arrival of a reply within the 5 s response deadline, any other exception in
the handler body) are given as an explicit `RunOutcome`.  The `finally:` at
lines 330-331 pops the correlation slot on every exit path that follows
registration; the `return` inside the inner `except asyncio.TimeoutError`
still runs that `finally`.  The memory-context fetch never raises (it
degrades to an empty list), so it does not contribute an exit path.
-/

/-- `RESPONSE_TIMEOUT = 5.0` (line 35), the response deadline in seconds. -/
def RESPONSE_TIMEOUT : ℚ := 5

/-- The publish deadline, `timeout=2.0` at line 309. -/
def PUBLISH_DEADLINE : ℚ := 2

/-- How the environment behaves during one request: the publish times out,
a reply resolves the slot in time, the 5 s await times out, or some other
exception is raised inside the handler body. -/
inductive RunOutcome where
  | publishTimeout : RunOutcome
  | reply : Json → RunOutcome
  | respTimeout : RunOutcome
  | internalError : RunOutcome

/-- The response model of POST /input (`InputResponse`, lines 55-58). -/
structure InputResponse where
  request_id : String
  response : Option Json
  error : Option String

/-- `handle_input` (lines 282-334): an `Except.error 503` models the
`HTTPException` raised while Redis is unavailable (before any slot is
registered); otherwise a slot is registered, the outcome determines the
result exactly as the two nested `try`s do, and the `finally` removes the
slot before returning. -/
def handle_input (rid : String) (redisUp : Bool) (outcome : RunOutcome)
    (t : CorrTable) : Except Nat InputResponse × CorrTable :=
  if !redisUp then (Except.error 503, t)
  else
    let t1 := corrRegister t rid
    let result : InputResponse :=
      match outcome with
      | .publishTimeout => ⟨rid, none, some "publish timeout"⟩
      | .reply v => ⟨rid, some v, none⟩
      | .respTimeout => ⟨rid, none, some "timeout"⟩
      | .internalError => ⟨rid, none, some "internal error"⟩
    (Except.ok result, corrRemove t1 rid)

/-- C2: a publish that misses the 2 s deadline yields
`{request_id, error: "publish timeout"}`; a publish that succeeds with no
reply inside the 5 s deadline yields `{request_id, error: "timeout"}`; the
two error strings are distinct outcomes; and on every exit path after
registration — success, response timeout, publish timeout, internal error —
the correlation slot is removed before the call returns. -/
theorem c2_handle_input_outcomes_and_cleanup (rid : String) (t : CorrTable) :
    (handle_input rid true RunOutcome.publishTimeout t).1
      = Except.ok ⟨rid, none, some "publish timeout"⟩
    ∧ (handle_input rid true RunOutcome.respTimeout t).1
        = Except.ok ⟨rid, none, some "timeout"⟩
    ∧ ("publish timeout" : String) ≠ "timeout"
    ∧ ∀ outcome : RunOutcome,
        lookupSlot (handle_input rid true outcome t).2 rid = none := by
  refine ⟨rfl, rfl, by decide, ?_⟩
  intro outcome
  cases outcome <;> exact lookupSlot_corrRemove _ rid

/-!
## Registration on both transports — the C3 duplicate-id question

HTTP: lines 291-292 (`request_id = str(uuid.uuid4())` then plain dict
assignment).  WebSocket: lines 370 and 379-380 — the inbound message may
supply its own `request_id` (`raw.get("request_id") or str(uuid.uuid4())`,
where a falsy supplied value, e.g. the empty string, falls back to a fresh
uuid), followed by the same plain dict assignment.  Neither path consults the
table before assigning.
-/

/-- Line 370: `request_id = raw.get("request_id") or str(uuid.uuid4())`. -/
def wsRequestId (supplied : Option String) (freshId : String) : String :=
  match supplied with
  | some s => if s = "" then freshId else s
  | none => freshId

/-- The WebSocket registration step for one inbound user message: choose the
request id, then `_state["pending_responses"][request_id] = future`. -/
def wsRegisterSlot (t : CorrTable) (supplied : Option String)
    (freshId : String) : String × CorrTable :=
  let rid := wsRequestId supplied freshId
  (rid, corrRegister t rid)

/-- Counterexample to C3: the table already holds a slot for `"r"` (here
resolved with `"A"`), yet registering `"r"` again — as the WebSocket
transport does for a client-supplied id — succeeds silently, replacing the
existing slot with a fresh pending one instead of failing with
`DuplicateRequestID`; the previously stored value is lost. -/
theorem c3_counterexample :
    wsRegisterSlot [("r", some (Json.str "A"))] (some "r") "fresh-id"
      = ("r", [("r", (none : Option Json))])
    ∧ lookupSlot (corrRegister [("r", some (Json.str "A"))] "r") "r"
        ≠ some (some (Json.str "A")) := by
  refine ⟨rfl, ?_⟩
  intro h
  rw [show lookupSlot (corrRegister [("r", some (Json.str "A"))] "r") "r"
    = some none from rfl] at h
  injection h with h'
  exact Option.noConfusion h'

/-- C3 amended: registration never checks for duplicates.  On both the HTTP
and the WebSocket transport (including a WebSocket-supplied request id), the
registration step always succeeds and leaves a fresh pending slot under the
chosen id, silently overwriting any slot already present. -/
theorem c3_amended_register_overwrites (t : CorrTable) (rid freshId : String)
    (supplied : Option String) :
    lookupSlot (corrRegister t rid) rid = some none
    ∧ lookupSlot (wsRegisterSlot t supplied freshId).2
        (wsRegisterSlot t supplied freshId).1 = some none := by
  exact ⟨lookupSlot_corrRegister t rid,
    lookupSlot_corrRegister t (wsRequestId supplied freshId)⟩

/-!
## Additional dict lemmas used by the liveness tracker and registries
-/

theorem keyMem_of_mem {β : Type} (l : List (String × β)) (p : String × β)
    (hp : p ∈ l) : keyMem l p.1 = true := by
  induction l with
  | nil => cases hp
  | cons q l ih =>
      obtain ⟨k, w⟩ := q
      rcases List.mem_cons.mp hp with heq | h
      · subst heq
        simp [keyMem]
      · have hr := ih h
        by_cases hk : k = p.1
        · simp only [keyMem, if_pos hk]
        · simp only [keyMem, if_neg hk]
          exact hr

theorem keySet_val_eq {β : Type} (l : List (String × β)) (key : String) (v : β) :
    ∀ p ∈ keySet l key v, p.1 = key → p.2 = v := by
  induction l with
  | nil => intro p hp; cases hp
  | cons q l ih =>
      obtain ⟨k, w⟩ := q
      intro p hp hpk
      have hexp : keySet ((k, w) :: l) key v
          = (if k = key then (key, v) else (k, w)) :: keySet l key v := rfl
      rw [hexp] at hp
      by_cases hk : k = key
      · rw [if_pos hk] at hp
        rcases List.mem_cons.mp hp with heq | hm
        · rw [heq]
        · exact ih p hm hpk
      · rw [if_neg hk] at hp
        rcases List.mem_cons.mp hp with heq | hm
        · exfalso
          apply hk
          rw [← hpk, heq]
        · exact ih p hm hpk

theorem keyAssign_val_eq {β : Type} (l : List (String × β)) (key : String) (v : β) :
    ∀ p ∈ keyAssign l key v, p.1 = key → p.2 = v := by
  intro p hp hpk
  by_cases h : keyMem l key
  · rw [keyAssign, if_pos h] at hp
    exact keySet_val_eq l key v p hp hpk
  · rw [keyAssign, if_neg h] at hp
    rcases List.mem_append.mp hp with h1 | h2
    · exfalso
      have := keyMem_of_mem l p h1
      rw [hpk] at this
      rw [this] at h
      exact h rfl
    · rw [List.mem_singleton.mp h2]

theorem mem_keySet_ne {β : Type} (l : List (String × β)) (key : String) (v : β)
    (w : String) (ts : β) (h : w ≠ key) :
    (w, ts) ∈ keySet l key v ↔ (w, ts) ∈ l := by
  induction l with
  | nil => exact Iff.rfl
  | cons q l ih =>
      obtain ⟨k, x⟩ := q
      have hexp : keySet ((k, x) :: l) key v
          = (if k = key then (key, v) else (k, x)) :: keySet l key v := rfl
      rw [hexp]
      by_cases hk : k = key
      · rw [if_pos hk]
        simp only [List.mem_cons, ih, Prod.mk.injEq]
        have h1 : ¬(w = key ∧ ts = v) := fun hc => h hc.1
        have h2 : ¬(w = k ∧ ts = x) := fun hc => h (hc.1.trans hk)
        tauto
      · rw [if_neg hk]
        simp only [List.mem_cons, ih]

theorem mem_keyAssign_ne {β : Type} (l : List (String × β)) (key : String) (v : β)
    (w : String) (ts : β) (h : w ≠ key) :
    (w, ts) ∈ keyAssign l key v ↔ (w, ts) ∈ l := by
  by_cases hm : keyMem l key
  · rw [keyAssign, if_pos hm]
    exact mem_keySet_ne l key v w ts h
  · rw [keyAssign, if_neg hm]
    simp only [List.mem_append, List.mem_singleton, Prod.mk.injEq]
    have h1 : ¬(w = key ∧ ts = v) := fun hc => h hc.1
    tauto

theorem keyLookup_mem {β : Type} (l : List (String × β)) (k : String) (v : β)
    (h : keyLookup l k = some v) : (k, v) ∈ l := by
  induction l with
  | nil => cases h
  | cons q l ih =>
      obtain ⟨k', w⟩ := q
      by_cases hk : k' = k
      · rw [keyLookup, if_pos hk] at h
        injection h with h'
        subst hk
        subst h'
        exact List.mem_cons_self _ _
      · rw [keyLookup, if_neg hk] at h
        exact List.mem_cons_of_mem _ (ih h)

theorem keyLookup_filter_keep {β : Type} (l : List (String × β)) (key : String)
    (q : String × β → Bool) (h : ∀ p ∈ l, p.1 = key → q p = true) :
    keyLookup (l.filter q) key = keyLookup l key := by
  induction l with
  | nil => rfl
  | cons p l ih =>
      obtain ⟨k, w⟩ := p
      have hrest : ∀ p ∈ l, p.1 = key → q p = true :=
        fun p hp => h p (List.mem_cons_of_mem _ hp)
      by_cases hk : k = key
      · have hq : q (k, w) = true := h (k, w) (List.mem_cons_self _ _) hk
        rw [List.filter_cons_of_pos hq]
        simp only [keyLookup, if_pos hk]
      · by_cases hq : q (k, w) = true
        · rw [List.filter_cons_of_pos hq]
          simp only [keyLookup, if_neg hk]
          exact ih hrest
        · rw [List.filter_cons_of_neg (by simpa using hq)]
          simp only [keyLookup, if_neg hk]
          exact ih hrest

theorem keyLookup_filter_none {β : Type} (l : List (String × β)) (key : String)
    (q : String × β → Bool) (h : ∀ p ∈ l, p.1 = key → q p = false) :
    keyLookup (l.filter q) key = none := by
  induction l with
  | nil => rfl
  | cons p l ih =>
      obtain ⟨k, w⟩ := p
      have hrest : ∀ p ∈ l, p.1 = key → q p = false :=
        fun p hp => h p (List.mem_cons_of_mem _ hp)
      by_cases hk : k = key
      · have hq : q (k, w) = false := h (k, w) (List.mem_cons_self _ _) hk
        rw [List.filter_cons_of_neg (by simp [hq])]
        exact ih hrest
      · by_cases hq : q (k, w) = true
        · rw [List.filter_cons_of_pos hq]
          simp only [keyLookup, if_neg hk]
          exact ih hrest
        · rw [List.filter_cons_of_neg (by simpa using hq)]
          exact ih hrest

theorem contains_eq_false_iff (l : List String) (a : String) :
    l.contains a = false ↔ a ∉ l := by
  constructor
  · intro h hm
    have h2 : l.contains a = true := List.elem_iff.mpr hm
    rw [h2] at h
    cases h
  · intro h
    cases hc : l.contains a with
    | false => rfl
    | true => exact absurd (List.elem_iff.mp hc) h

/-!
## Liveness tracker — _heartbeat_watcher (central-agent/main.py lines 155-179)

`_state["active_agents"]` is a Python set, modelled as a duplicate-free list
(`add` appends when absent, `discard` filters); `_state["agent_last_seen"]`
is a dict from agent name to timestamp.  Timestamps are modelled as integer
seconds.  On every heartbeat receipt the watcher adds/refreshes the sender
and then prunes, inline, every agent whose `last_seen` is more than 60
seconds old, removing it from both structures.
-/

/-- The liveness staleness threshold: `now - ts > 60` at line 171. -/
def STALENESS_THRESHOLD : ℤ := 60

/-- The two liveness structures. -/
structure LiveState where
  active : List String
  lastSeen : List (String × ℤ)

/-- One heartbeat receipt (lines 164-177): add the agent to the membership
set, record `last_seen = now`, compute the stale agents from the updated
record, and remove each stale agent from both the set and the record. -/
def heartbeat (st : LiveState) (name : String) (now : ℤ) : LiveState :=
  let active := if st.active.contains name then st.active else st.active ++ [name]
  let seen := keyAssign st.lastSeen name now
  let stale := (seen.filter (fun p => STALENESS_THRESHOLD < now - p.2)).map Prod.fst
  { active := active.filter (fun a => !(stale.contains a)),
    lastSeen := seen.filter (fun p => !(stale.contains p.1)) }

/-- A sequence of heartbeat receipts processed in order. -/
def runBeats (st : LiveState) : List (String × ℤ) → LiveState
  | [] => st
  | (n, t) :: rest => runBeats (heartbeat st n t) rest

/-- `freshThrough w last trace` holds when every event in `trace` happens at
most the staleness threshold after the most recent heartbeat of `w` (whose
time starts at `last` and is refreshed by w's own beats in the trace). -/
def freshThrough (w : String) : ℤ → List (String × ℤ) → Bool
  | _, [] => true
  | last, (n, t) :: rest =>
      decide (t - last ≤ STALENESS_THRESHOLD)
        && freshThrough w (if n = w then t else last) rest

theorem not_mem_stale_iff (seen : List (String × ℤ)) (now : ℤ) (a : String) :
    (a ∉ (seen.filter (fun p => STALENESS_THRESHOLD < now - p.2)).map Prod.fst)
      ↔ ∀ ts, (a, ts) ∈ seen → now - ts ≤ STALENESS_THRESHOLD := by
  constructor
  · intro h ts hts
    by_contra hlt
    apply h
    refine List.mem_map.mpr ⟨(a, ts), ?_, rfl⟩
    refine List.mem_filter.mpr ⟨hts, ?_⟩
    simp only [decide_eq_true_eq]
    omega
  · intro h hmem
    obtain ⟨p, hp, hpa⟩ := List.mem_map.mp hmem
    obtain ⟨hpseen, hcond⟩ := List.mem_filter.mp hp
    simp only [decide_eq_true_eq] at hcond
    obtain ⟨k, ts⟩ := p
    have hk : k = a := hpa
    subst hk
    have := h ts hpseen
    omega

theorem heartbeat_self (st : LiveState) (n : String) (now : ℤ) :
    n ∈ (heartbeat st n now).active
    ∧ keyLookup (heartbeat st n now).lastSeen n = some now
    ∧ (∀ ts, (n, ts) ∈ (heartbeat st n now).lastSeen → ts = now)
    ∧ (n, now) ∈ (heartbeat st n now).lastSeen := by
  have hval : ∀ p ∈ keyAssign st.lastSeen n now, p.1 = n → p.2 = now :=
    keyAssign_val_eq st.lastSeen n now
  have hnotstale : n ∉ ((keyAssign st.lastSeen n now).filter
      (fun p => STALENESS_THRESHOLD < now - p.2)).map Prod.fst := by
    rw [not_mem_stale_iff]
    intro ts hts
    have := hval (n, ts) hts rfl
    simp only at this
    simp only [STALENESS_THRESHOLD]
    omega
  have hcontains : ((((keyAssign st.lastSeen n now).filter
      (fun p => STALENESS_THRESHOLD < now - p.2)).map Prod.fst).contains n) = false :=
    (contains_eq_false_iff _ n).mpr hnotstale
  have hpre : n ∈ (if st.active.contains n then st.active else st.active ++ [n]) := by
    by_cases hc : st.active.contains n
    · rw [if_pos hc]
      exact List.elem_iff.mp hc
    · rw [if_neg hc]
      exact List.mem_append.mpr (Or.inr (List.mem_singleton.mpr rfl))
  have hlook : keyLookup (heartbeat st n now).lastSeen n = some now := by
    show keyLookup ((keyAssign st.lastSeen n now).filter _) n = some now
    rw [keyLookup_filter_keep]
    · exact keyLookup_keyAssign st.lastSeen n now
    · intro p hp hpk
      rw [hpk, hcontains]
      rfl
  refine ⟨?_, hlook, ?_, ?_⟩
  · show n ∈ List.filter _ _
    refine List.mem_filter.mpr ⟨hpre, ?_⟩
    rw [hcontains]
    rfl
  · intro ts hts
    have hts' := (List.mem_filter.mp hts).1
    exact hval (n, ts) hts' rfl
  · exact keyLookup_mem _ n now hlook

theorem heartbeat_evicts (st : LiveState) (n : String) (now : ℤ) (w : String)
    (ts0 : ℤ) (hw : w ≠ n)
    (hstale : ∀ ts, (w, ts) ∈ st.lastSeen → STALENESS_THRESHOLD < now - ts)
    (hex : (w, ts0) ∈ st.lastSeen) :
    w ∉ (heartbeat st n now).active
    ∧ keyLookup (heartbeat st n now).lastSeen w = none := by
  have hseen : (w, ts0) ∈ keyAssign st.lastSeen n now :=
    (mem_keyAssign_ne st.lastSeen n now w ts0 hw).mpr hex
  have hwstale : w ∈ ((keyAssign st.lastSeen n now).filter
      (fun p => STALENESS_THRESHOLD < now - p.2)).map Prod.fst := by
    refine List.mem_map.mpr ⟨(w, ts0), ?_, rfl⟩
    refine List.mem_filter.mpr ⟨hseen, ?_⟩
    simp only [decide_eq_true_eq]
    exact hstale ts0 hex
  have hcontains : ((((keyAssign st.lastSeen n now).filter
      (fun p => STALENESS_THRESHOLD < now - p.2)).map Prod.fst).contains w) = true :=
    List.elem_iff.mpr hwstale
  constructor
  · intro hmem
    have := (List.mem_filter.mp hmem).2
    rw [hcontains] at this
    cases this
  · show keyLookup ((keyAssign st.lastSeen n now).filter _) w = none
    apply keyLookup_filter_none
    intro p hp hpk
    rw [hpk, hcontains]
    rfl

theorem heartbeat_keeps (st : LiveState) (n : String) (now : ℤ) (w : String)
    (hw : w ≠ n) (hact : w ∈ st.active)
    (hfresh : ∀ ts, (w, ts) ∈ st.lastSeen → now - ts ≤ STALENESS_THRESHOLD) :
    w ∈ (heartbeat st n now).active
    ∧ (∀ ts, ((w, ts) ∈ (heartbeat st n now).lastSeen ↔ (w, ts) ∈ st.lastSeen)) := by
  have hmemiff : ∀ ts, ((w, ts) ∈ keyAssign st.lastSeen n now ↔ (w, ts) ∈ st.lastSeen) :=
    fun ts => mem_keyAssign_ne st.lastSeen n now w ts hw
  have hnotstale : w ∉ ((keyAssign st.lastSeen n now).filter
      (fun p => STALENESS_THRESHOLD < now - p.2)).map Prod.fst := by
    rw [not_mem_stale_iff]
    intro ts hts
    exact hfresh ts ((hmemiff ts).mp hts)
  have hcontains : ((((keyAssign st.lastSeen n now).filter
      (fun p => STALENESS_THRESHOLD < now - p.2)).map Prod.fst).contains w) = false :=
    (contains_eq_false_iff _ w).mpr hnotstale
  constructor
  · have hpre : w ∈ (if st.active.contains n then st.active else st.active ++ [n]) := by
      by_cases hc : st.active.contains n
      · rw [if_pos hc]; exact hact
      · rw [if_neg hc]; exact List.mem_append.mpr (Or.inl hact)
    refine List.mem_filter.mpr ⟨hpre, ?_⟩
    rw [hcontains]
    rfl
  · intro ts
    constructor
    · intro hts
      exact (hmemiff ts).mp (List.mem_filter.mp hts).1
    · intro hts
      refine List.mem_filter.mpr ⟨(hmemiff ts).mpr hts, ?_⟩
      rw [hcontains]
      rfl

theorem runBeats_keeps_fresh (trace : List (String × ℤ)) :
    ∀ (st : LiveState) (w : String) (last : ℤ),
      w ∈ st.active → (w, last) ∈ st.lastSeen →
      (∀ ts, (w, ts) ∈ st.lastSeen → ts = last) →
      freshThrough w last trace = true →
      w ∈ (runBeats st trace).active := by
  induction trace with
  | nil => intro st w last h1 _ _ _; exact h1
  | cons e rest ih =>
      obtain ⟨n, t⟩ := e
      intro st w last h1 h2 h3 hf
      have hf' : decide (t - last ≤ STALENESS_THRESHOLD) = true
          ∧ freshThrough w (if n = w then t else last) rest = true := by
        simpa only [freshThrough, Bool.and_eq_true] using hf
      have hle : t - last ≤ STALENESS_THRESHOLD := by
        have := hf'.1
        simpa only [decide_eq_true_eq] using this
      show w ∈ (runBeats (heartbeat st n t) rest).active
      by_cases hn : n = w
      · subst hn
        have hA := heartbeat_self st n t
        apply ih (heartbeat st n t) n t hA.1 hA.2.2.2 hA.2.2.1
        have := hf'.2
        rwa [if_pos rfl] at this
      · have hfresh : ∀ ts, (w, ts) ∈ st.lastSeen → t - ts ≤ STALENESS_THRESHOLD := by
          intro ts hts
          rw [h3 ts hts]
          exact hle
        have hC := heartbeat_keeps st n t w (fun he => hn he.symm) h1 hfresh
        apply ih (heartbeat st n t) w last hC.1 ((hC.2 last).mpr h2)
        · intro ts hts
          exact h3 ts ((hC.2 ts).mp hts)
        · have := hf'.2
          rwa [if_neg hn] at this

/-- C7: each heartbeat receipt adds/refreshes the sender with the current
timestamp and runs an inline sweep: (1) the sender is in the membership set
with `last_seen = now`; (2) a worker stale by more than 60 seconds at this
sweep is removed from both the membership set and the timestamp record;
(3) a worker whose last_seen is within 60 seconds survives the sweep;
(4) consequently a worker that heartbeats at gaps of at most 60 seconds —
for example every 30 seconds — is never evicted across any sequence of
subsequent heartbeat receipts. -/
theorem c7_heartbeat_liveness (st : LiveState) (n w : String) (now ts0 : ℤ) :
    (n ∈ (heartbeat st n now).active
      ∧ keyLookup (heartbeat st n now).lastSeen n = some now)
    ∧ (w ≠ n → (∀ ts, (w, ts) ∈ st.lastSeen → STALENESS_THRESHOLD < now - ts) →
        (w, ts0) ∈ st.lastSeen →
        w ∉ (heartbeat st n now).active
          ∧ keyLookup (heartbeat st n now).lastSeen w = none)
    ∧ (w ≠ n → w ∈ st.active →
        (∀ ts, (w, ts) ∈ st.lastSeen → now - ts ≤ STALENESS_THRESHOLD) →
        w ∈ (heartbeat st n now).active)
    ∧ (∀ t0 trace, freshThrough w t0 trace = true →
        w ∈ (runBeats (heartbeat st w t0) trace).active) := by
  refine ⟨⟨(heartbeat_self st n now).1, (heartbeat_self st n now).2.1⟩, ?_, ?_, ?_⟩
  · intro hw hstale hex
    exact heartbeat_evicts st n now w ts0 hw hstale hex
  · intro hw hact hfresh
    exact (heartbeat_keeps st n now w hw hact hfresh).1
  · intro t0 trace hf
    have hA := heartbeat_self st w t0
    exact runBeats_keeps_fresh trace (heartbeat st w t0) w t0 hA.1 hA.2.2.2 hA.2.2.1 hf

/-- Witness for C7 on concrete states: a heartbeat from `"fresh"` at t=100
registers it; the worker `"old"` last seen at t=0 is evicted by that same
sweep from both structures; a worker last seen at t=70 survives it; and a
worker beating at 0, 40 with an interleaved foreign beat at 95 is still a
member. -/
theorem c7_witness :
    ("fresh" ∈ (heartbeat ⟨["old"], [("old", 0)]⟩ "fresh" 100).active
      ∧ keyLookup (heartbeat ⟨["old"], [("old", 0)]⟩ "fresh" 100).lastSeen "fresh"
          = some 100)
    ∧ ("old" ∉ (heartbeat ⟨["old"], [("old", 0)]⟩ "fresh" 100).active
      ∧ keyLookup (heartbeat ⟨["old"], [("old", 0)]⟩ "fresh" 100).lastSeen "old" = none)
    ∧ ("ok" ∈ (heartbeat ⟨["ok"], [("ok", 70)]⟩ "fresh" 100).active)
    ∧ ("w" ∈ (runBeats (heartbeat ⟨[], []⟩ "w" 0)
        [("w", 40), ("emo", 95)]).active) := by
  refine ⟨⟨(c7_heartbeat_liveness ⟨["old"], [("old", 0)]⟩ "fresh" "old" 100 0).1.1,
      (c7_heartbeat_liveness ⟨["old"], [("old", 0)]⟩ "fresh" "old" 100 0).1.2⟩, ?_, ?_, ?_⟩
  · exact (c7_heartbeat_liveness ⟨["old"], [("old", 0)]⟩ "fresh" "old" 100 0).2.1
      (by decide) (by intro ts hts; simp at hts; simp only [STALENESS_THRESHOLD]; omega)
      (by simp)
  · exact (c7_heartbeat_liveness ⟨["ok"], [("ok", 70)]⟩ "fresh" "ok" 100 70).2.2.1
      (by decide) (by simp)
      (by intro ts hts; simp at hts; simp only [STALENESS_THRESHOLD]; omega)
  · exact (c7_heartbeat_liveness ⟨[], []⟩ "x" "w" 0 0).2.2.2 0
      [("w", 40), ("emo", 95)] (by decide)

/-!
## Connection registry — _broadcast_to_ws and ws_chat cleanup
(central-agent/main.py lines 82-102, 344-435)

`_state["ws_clients"]` maps a session id to a set of live WebSocket handles;
handles are modelled as naturals, sets as duplicate-free lists.  Send
failures during a broadcast are environment-determined and appear as a
`sendFails` oracle.  Failed connections are collected in `dead` while the
pass iterates and are discarded only after the pass (lines 92-102).  The
`ws_chat` `finally:` (lines 432-435) discards the closed connection and pops
the session key when its set has become empty — the broadcast path performs
no such pop.
-/

/-- The connection registry `_state["ws_clients"]`. -/
abbrev WsRegistry := List (String × List Nat)

/-- Target selection (lines 86-91): a truthy `session_id` present in the
registry selects that session's connections; `session_id is None` selects
every connection of every session; otherwise no targets. -/
def broadcastTargets (clients : WsRegistry) (sid : Option String) : List Nat :=
  match sid with
  | some s =>
      if s ≠ "" ∧ keyMem clients s = true then (keyLookup clients s).getD [] else []
  | none => clients.foldl (fun acc p => acc ++ p.2) []

/-- `dead` collection (lines 92-100): for each target whose send raises, scan
the registry and record `(session, connection)` for every session whose set
holds that connection. -/
def deadConnections (clients : WsRegistry) (sendFails : Nat → Bool)
    (targets : List Nat) : List (String × Nat) :=
  targets.foldl
    (fun dead ws =>
      if sendFails ws then
        dead ++ (clients.filter (fun p => p.2.contains ws)).map (fun p => (p.1, ws))
      else dead)
    []

/-- `_state["ws_clients"].get(sid, set()).discard(ws)` (line 102): remove the
connection from the named session's set; keys are never removed. -/
def discardWs : WsRegistry → String → Nat → WsRegistry
  | [], _, _ => []
  | (k, conns) :: cs, sid, ws =>
      (k, if k = sid then conns.filter (fun x => x ≠ ws) else conns)
        :: discardWs cs sid ws

/-- `_broadcast_to_ws` (lines 82-102): returns the list of connections that
received the message and the registry after the post-pass removals. -/
def broadcastToWs (clients : WsRegistry) (sendFails : Nat → Bool)
    (sid : Option String) : List Nat × WsRegistry :=
  let targets := broadcastTargets clients sid
  let dead := deadConnections clients sendFails targets
  (targets.filter (fun ws => !(sendFails ws)),
    dead.foldl (fun cs p => discardWs cs p.1 p.2) clients)

/-- The `ws_chat` `finally:` (lines 432-435): discard the connection, then
pop the session key if its set is now empty (or the key is absent). -/
def wsDisconnect (clients : WsRegistry) (sid : String) (ws : Nat) : WsRegistry :=
  let c1 := discardWs clients sid ws
  if ((keyLookup c1 sid).getD []).isEmpty then keyErase c1 sid else c1

theorem keyLookup_discardWs (cs : WsRegistry) (sid : String) (ws : Nat) :
    keyLookup (discardWs cs sid ws) sid
      = (keyLookup cs sid).map (fun l => l.filter (fun x => x ≠ ws)) := by
  induction cs with
  | nil => rfl
  | cons p cs ih =>
      obtain ⟨k, conns⟩ := p
      by_cases hk : k = sid
      · have h1 : discardWs ((k, conns) :: cs) sid ws
            = (k, conns.filter (fun x => x ≠ ws)) :: discardWs cs sid ws := by
          simp only [discardWs, if_pos hk]
        rw [h1]
        simp only [keyLookup, if_pos hk]
        rfl
      · have h1 : discardWs ((k, conns) :: cs) sid ws
            = (k, conns) :: discardWs cs sid ws := by
          simp only [discardWs, if_neg hk]
        rw [h1]
        simp only [keyLookup, if_neg hk]
        exact ih

theorem keyLookup_discardWs_ne (cs : WsRegistry) (sid s : String) (ws : Nat)
    (h : s ≠ sid) : keyLookup (discardWs cs sid ws) s = keyLookup cs s := by
  induction cs with
  | nil => rfl
  | cons p cs ih =>
      obtain ⟨k, conns⟩ := p
      by_cases hk : k = sid
      · have h1 : discardWs ((k, conns) :: cs) sid ws
            = (k, conns.filter (fun x => x ≠ ws)) :: discardWs cs sid ws := by
          simp only [discardWs, if_pos hk]
        rw [h1]
        have hks : ¬k = s := by
          rw [hk]
          exact Ne.symm h
        simp only [keyLookup, if_neg hks]
        exact ih
      · have h1 : discardWs ((k, conns) :: cs) sid ws
            = (k, conns) :: discardWs cs sid ws := by
          simp only [discardWs, if_neg hk]
        rw [h1]
        by_cases hks : k = s
        · simp only [keyLookup, if_pos hks]
        · simp only [keyLookup, if_neg hks]
          exact ih

theorem keyMem_discardWs (cs : WsRegistry) (sid : String) (ws : Nat) (k : String) :
    keyMem (discardWs cs sid ws) k = keyMem cs k := by
  induction cs with
  | nil => rfl
  | cons p cs ih =>
      obtain ⟨k', conns⟩ := p
      by_cases hk : k' = sid
      · have h1 : discardWs ((k', conns) :: cs) sid ws
            = (k', conns.filter (fun x => x ≠ ws)) :: discardWs cs sid ws := by
          simp only [discardWs, if_pos hk]
        rw [h1]
        by_cases hkk : k' = k
        · simp only [keyMem, if_pos hkk]
        · simp only [keyMem, if_neg hkk]
          exact ih
      · have h1 : discardWs ((k', conns) :: cs) sid ws
            = (k', conns) :: discardWs cs sid ws := by
          simp only [discardWs, if_neg hk]
        rw [h1]
        by_cases hkk : k' = k
        · simp only [keyMem, if_pos hkk]
        · simp only [keyMem, if_neg hkk]
          exact ih

theorem discard_removes (cs : WsRegistry) (sid : String) (ws : Nat) :
    ∀ l, keyLookup (discardWs cs sid ws) sid = some l → ws ∉ l := by
  intro l hl
  rw [keyLookup_discardWs] at hl
  cases hcs : keyLookup cs sid with
  | none => rw [hcs] at hl; cases hl
  | some l0 =>
      rw [hcs] at hl
      injection hl with hl'
      intro hmem
      rw [← hl'] at hmem
      have := (List.mem_filter.mp hmem).2
      simp at this

theorem discard_preserves_absent (cs : WsRegistry) (sid : String) (ws : Nat)
    (s : String) (w : Nat) (h : ∀ l, keyLookup cs sid = some l → ws ∉ l) :
    ∀ l, keyLookup (discardWs cs s w) sid = some l → ws ∉ l := by
  intro l hl
  by_cases hs : s = sid
  · subst hs
    rw [keyLookup_discardWs] at hl
    cases hcs : keyLookup cs s with
    | none => rw [hcs] at hl; cases hl
    | some l0 =>
        rw [hcs] at hl
        injection hl with hl'
        intro hmem
        rw [← hl'] at hmem
        exact h l0 hcs ((List.mem_filter.mp hmem).1)
  · rw [keyLookup_discardWs_ne cs s sid w (fun he => hs he.symm)] at hl
    exact h l hl

theorem foldl_discard_removes (dead : List (String × Nat)) :
    ∀ (cs : WsRegistry) (sid : String) (ws : Nat),
      ((sid, ws) ∈ dead ∨ (∀ l, keyLookup cs sid = some l → ws ∉ l)) →
      ∀ l, keyLookup (dead.foldl (fun c p => discardWs c p.1 p.2) cs) sid = some l →
        ws ∉ l := by
  induction dead with
  | nil =>
      intro cs sid ws h l hl
      rcases h with h | h
      · cases h
      · exact h l hl
  | cons p dead ih =>
      obtain ⟨s, w⟩ := p
      intro cs sid ws h l hl
      rcases h with h | h
      · rcases List.mem_cons.mp h with heq | hrest
        · injection heq with h1 h2
          subst h1
          subst h2
          exact ih (discardWs cs sid ws) sid ws
            (Or.inr (discard_removes cs sid ws)) l hl
        · exact ih (discardWs cs s w) sid ws (Or.inl hrest) l hl
      · exact ih (discardWs cs s w) sid ws
          (Or.inr (discard_preserves_absent cs sid ws s w h)) l hl

theorem foldl_discard_keyMem (dead : List (String × Nat)) :
    ∀ (cs : WsRegistry) (k : String),
      keyMem (dead.foldl (fun c p => discardWs c p.1 p.2) cs) k = keyMem cs k := by
  induction dead with
  | nil => intro cs k; rfl
  | cons p dead ih =>
      obtain ⟨s, w⟩ := p
      intro cs k
      show keyMem (dead.foldl _ (discardWs cs s w)) k = keyMem cs k
      rw [ih (discardWs cs s w) k, keyMem_discardWs]

theorem foldl_dead_acc_sub (clients : WsRegistry) (f : Nat → Bool) :
    ∀ (targets : List Nat) (acc : List (String × Nat)) (x : String × Nat),
      x ∈ acc →
      x ∈ targets.foldl
        (fun dead ws =>
          if f ws then
            dead ++ (clients.filter (fun p => p.2.contains ws)).map (fun p => (p.1, ws))
          else dead)
        acc := by
  intro targets
  induction targets with
  | nil => intro acc x hx; exact hx
  | cons t ts ih =>
      intro acc x hx
      show x ∈ ts.foldl _ (if f t then _ else acc)
      by_cases hf : f t = true
      · rw [if_pos hf]
        exact ih _ x (List.mem_append.mpr (Or.inl hx))
      · rw [if_neg hf]
        exact ih acc x hx

theorem foldl_dead_mem_of_target (clients : WsRegistry) (f : Nat → Bool)
    (x : String × Nat) :
    ∀ (targets : List Nat) (acc : List (String × Nat)) (ws : Nat),
      ws ∈ targets → f ws = true →
      x ∈ (clients.filter (fun p => p.2.contains ws)).map (fun p => (p.1, ws)) →
      x ∈ targets.foldl
        (fun dead w =>
          if f w then
            dead ++ (clients.filter (fun p => p.2.contains w)).map (fun p => (p.1, w))
          else dead)
        acc := by
  intro targets
  induction targets with
  | nil => intro acc ws hw; cases hw
  | cons t ts ih =>
      intro acc ws hw hf hx
      rcases List.mem_cons.mp hw with heq | hrest
      · subst heq
        show x ∈ ts.foldl _ (if f ws then _ else acc)
        rw [if_pos hf]
        exact foldl_dead_acc_sub clients f ts _ x (List.mem_append.mpr (Or.inr hx))
      · exact ih _ ws hrest hf hx

theorem deadConnections_mem (clients : WsRegistry) (f : Nat → Bool)
    (targets : List Nat) (ws : Nat) (sid : String) (conns : List Nat)
    (hw : ws ∈ targets) (hf : f ws = true)
    (hmem : (sid, conns) ∈ clients) (hws : conns.contains ws = true) :
    (sid, ws) ∈ deadConnections clients f targets := by
  have hg : (sid, ws) ∈ (clients.filter (fun p => p.2.contains ws)).map
      (fun p => (p.1, ws)) := by
    refine List.mem_map.mpr ⟨(sid, conns), ?_, rfl⟩
    exact List.mem_filter.mpr ⟨hmem, hws⟩
  exact foldl_dead_mem_of_target clients f (sid, ws) targets [] ws hw hf hg

theorem foldl_targets_acc_sub (clients : WsRegistry) :
    ∀ (acc : List Nat) (x : Nat), x ∈ acc →
      x ∈ clients.foldl (fun a q => a ++ q.2) acc := by
  induction clients with
  | nil => intro acc x hx; exact hx
  | cons q cs ih =>
      intro acc x hx
      exact ih _ x (List.mem_append.mpr (Or.inl hx))

theorem mem_targets_aux (clients : WsRegistry) :
    ∀ (acc : List Nat) (sid : String) (conns : List Nat) (ws : Nat),
      (sid, conns) ∈ clients → ws ∈ conns →
      ws ∈ clients.foldl (fun a q => a ++ q.2) acc := by
  induction clients with
  | nil => intro acc sid conns ws hmem _; cases hmem
  | cons q cs ih =>
      intro acc sid conns ws hmem hws
      rcases List.mem_cons.mp hmem with heq | hrest
      · subst heq
        show ws ∈ cs.foldl _ (acc ++ conns)
        exact foldl_targets_acc_sub cs _ ws (List.mem_append.mpr (Or.inr hws))
      · exact ih _ sid conns ws hrest hws

theorem mem_targets_all (clients : WsRegistry) (sid : String) (conns : List Nat)
    (ws : Nat) (hmem : (sid, conns) ∈ clients) (hws : ws ∈ conns) :
    ws ∈ broadcastTargets clients none :=
  mem_targets_aux clients [] sid conns ws hmem hws

/-- Counterexample to C9: with one session `"s"` holding one connection whose
send fails, the broadcast pass removes the connection, leaving the session's
set empty — but the session key `"s"` is NOT deleted from the registry on
this removal path (only the explicit-disconnect path pops empty keys). -/
theorem c9_counterexample :
    (broadcastToWs [("s", [7])] (fun _ => true) none).2 = [("s", [])]
    ∧ keyLookup (broadcastToWs [("s", [7])] (fun _ => true) none).2 "s" = some []
    ∧ keyLookup (broadcastToWs [("s", [7])] (fun _ => true) none).2 "s" ≠ none := by
  refine ⟨rfl, rfl, ?_⟩
  intro h
  rw [show keyLookup (broadcastToWs [("s", [7])] (fun _ => true) none).2 "s"
      = some [] from rfl] at h
  cases h

/-- C9 amended: a connection is removed on explicit disconnect or on send
failure during a broadcast (failed connections are collected during the pass
and discarded only afterwards, while every non-failing target is still
sent to); the session key is deleted when its set becomes empty on the
explicit-disconnect path only — the broadcast removal path never deletes a
session key, even one whose set has just become empty. -/
theorem c9_amended_registry_cleanup (clients : WsRegistry) (f : Nat → Bool)
    (sid : String) (ws : Nat) (s : List Nat) (k : String) :
    (∀ l, keyLookup (wsDisconnect clients sid ws) sid = some l → ws ∉ l)
    ∧ (((keyLookup (discardWs clients sid ws) sid).getD []).isEmpty = true →
        keyLookup (wsDisconnect clients sid ws) sid = none)
    ∧ (f ws = true → keyLookup clients sid = some s → ws ∈ s →
        ∀ l, keyLookup (broadcastToWs clients f none).2 sid = some l → ws ∉ l)
    ∧ (∀ t, t ∈ broadcastTargets clients none → f t = false →
        t ∈ (broadcastToWs clients f none).1)
    ∧ keyMem (broadcastToWs clients f none).2 k = keyMem clients k := by
  have hw : wsDisconnect clients sid ws
      = if ((keyLookup (discardWs clients sid ws) sid).getD []).isEmpty
        then keyErase (discardWs clients sid ws) sid
        else discardWs clients sid ws := rfl
  have hb : (broadcastToWs clients f none).2
      = (deadConnections clients f (broadcastTargets clients none)).foldl
          (fun cs p => discardWs cs p.1 p.2) clients := rfl
  refine ⟨?_, ?_, ?_, ?_, ?_⟩
  · intro l hl
    by_cases hc : ((keyLookup (discardWs clients sid ws) sid).getD []).isEmpty = true
    · rw [hw, if_pos hc, keyLookup_keyErase] at hl
      cases hl
    · rw [hw, if_neg hc] at hl
      exact discard_removes clients sid ws l hl
  · intro hc
    rw [hw, if_pos hc, keyLookup_keyErase]
  · intro hf hlook hmem l hl
    rw [hb] at hl
    refine foldl_discard_removes _ clients sid ws (Or.inl ?_) l hl
    exact deadConnections_mem clients f (broadcastTargets clients none) ws sid s
      (mem_targets_all clients sid s ws (keyLookup_mem clients sid s hlook) hmem)
      hf (keyLookup_mem clients sid s hlook) (List.elem_iff.mpr hmem)
  · intro t ht hft
    show t ∈ (broadcastTargets clients none).filter (fun w => !(f w))
    refine List.mem_filter.mpr ⟨ht, ?_⟩
    rw [hft]
    rfl
  · rw [hb]
    exact foldl_discard_keyMem _ clients k

/-- Witness for C9 (amended) on a concrete registry: disconnecting `2` from
`("s", [1, 2])` leaves `[1]` without `2`; disconnecting the last connection
pops the key; a broadcast in which connection `1` fails removes `1` but
delivers to `2`; and the broadcast leaves the session key present. -/
theorem c9_witness :
    ((2 : Nat) ∉ ([1] : List Nat))
    ∧ keyLookup (wsDisconnect [("s", [1])] "s" 1) "s" = none
    ∧ ((1 : Nat) ∉ ([2] : List Nat))
    ∧ (2 : Nat) ∈ (broadcastToWs [("s", [1, 2])] (fun w => decide (w = 1)) none).1
    ∧ keyMem (broadcastToWs [("s", [1, 2])] (fun w => decide (w = 1)) none).2 "s"
        = keyMem [("s", [1, 2])] "s" := by
  refine ⟨?_, ?_, ?_, ?_, ?_⟩
  · exact (c9_amended_registry_cleanup [("s", [1, 2])] (fun w => decide (w = 1))
      "s" 2 [1, 2] "s").1 [1] rfl
  · exact (c9_amended_registry_cleanup [("s", [1])] (fun w => decide (w = 1))
      "s" 1 [1] "s").2.1 rfl
  · exact (c9_amended_registry_cleanup [("s", [1, 2])] (fun w => decide (w = 1))
      "s" 1 [1, 2] "s").2.2.1 rfl rfl (by decide) [2] rfl
  · exact (c9_amended_registry_cleanup [("s", [1, 2])] (fun w => decide (w = 1))
      "s" 1 [1, 2] "s").2.2.2.1 2 (by decide) rfl
  · exact (c9_amended_registry_cleanup [("s", [1, 2])] (fun w => decide (w = 1))
      "s" 1 [1, 2] "s").2.2.2.2

/-!
## Dispatcher loop resilience (central-agent/main.py lines 105-152)

The `async for message in pubsub.listen()` loop first skips messages whose
type is neither `"message"` nor `"pmessage"`, then handles the message inside
a `try` whose `except Exception` logs and continues.  A message is modelled
as a dict that may lack the `"channel"` or `"data"` item (item access on a
missing key raises, landing in the per-message `except`); the inner
`try`/`except` around the emotion broadcast (lines 135-146) downgrades both a
body-parse failure and a WebSocket send failure (oracle `bf`) to a warning.
`seen` counts completed loop iterations.
-/

/-- One message as yielded by `pubsub.listen()`. -/
structure RMsg where
  msgType : String
  channel : Option String
  data : Option String

/-- Dispatcher-visible state: the correlation table, the emotion payloads
successfully fanned out, warnings and errors logged, and the number of loop
iterations completed. -/
structure DState where
  table : CorrTable
  emoBroadcasts : List String
  warns : List String
  errors : List String
  seen : Nat

/-- The body of the per-message `try` (lines 117-150).  A thrown exception is
an `Except.error`. -/
def handleMsg (parse : String → Option Json) (bf : Bool) (st : DState)
    (m : RMsg) : Except String DState :=
  match m.channel with
  | none => Except.error "KeyError: channel"
  | some channel =>
      match m.data with
      | none => Except.error "KeyError: data"
      | some data =>
          if channel.startsWith replyChannelPrefix then
            Except.ok { st with table := dispatchReply parse st.table channel data }
          else if channel = "emotion.state_changed" then
            match parse data with
            | none =>
                Except.ok { st with warns := st.warns ++ ["ws_emotion_broadcast_failed"] }
            | some _ =>
                if bf then
                  Except.ok { st with warns := st.warns ++ ["ws_emotion_broadcast_failed"] }
                else
                  Except.ok { st with emoBroadcasts := st.emoBroadcasts ++ [data] }
          else if channel = "memory.stored" then Except.ok st
          else Except.ok st

/-- One loop iteration: skip wrong-type messages, otherwise run the body and
catch any exception by logging it (lines 113-152). -/
def dispatchStep (parse : String → Option Json) (bf : Bool) (st : DState)
    (m : RMsg) : DState :=
  if m.msgType ≠ "message" ∧ m.msgType ≠ "pmessage" then
    { st with seen := st.seen + 1 }
  else
    match handleMsg parse bf { st with seen := st.seen + 1 } m with
    | Except.ok s => s
    | Except.error e => { st with seen := st.seen + 1, errors := st.errors ++ [e] }

/-- The dispatcher loop over a list of inbound messages. -/
def runDispatch (parse : String → Option Json) (bf : Bool) :
    DState → List RMsg → DState
  | st, [] => st
  | st, m :: ms => runDispatch parse bf (dispatchStep parse bf st m) ms

theorem handleMsg_seen (parse : String → Option Json) (bf : Bool) (st : DState)
    (m : RMsg) : ∀ s, handleMsg parse bf st m = Except.ok s → s.seen = st.seen := by
  intro s h
  obtain ⟨mt, mc, md⟩ := m
  cases mc with
  | none => exact Except.noConfusion h
  | some channel =>
      cases md with
      | none => exact Except.noConfusion h
      | some data =>
          have hexp : handleMsg parse bf st ⟨mt, some channel, some data⟩
              = (if channel.startsWith replyChannelPrefix then
                  Except.ok { st with table := dispatchReply parse st.table channel data }
                else if channel = "emotion.state_changed" then
                  match parse data with
                  | none =>
                      Except.ok
                        { st with warns := st.warns ++ ["ws_emotion_broadcast_failed"] }
                  | some _ =>
                      if bf then
                        Except.ok
                          { st with warns := st.warns ++ ["ws_emotion_broadcast_failed"] }
                      else
                        Except.ok
                          { st with emoBroadcasts := st.emoBroadcasts ++ [data] }
                else if channel = "memory.stored" then Except.ok st
                else Except.ok st) := rfl
          rw [hexp] at h
          by_cases h1 : channel.startsWith replyChannelPrefix = true
          · rw [if_pos h1] at h
            have h' := Except.ok.inj h
            subst h'
            rfl
          · rw [if_neg h1] at h
            by_cases h2 : channel = "emotion.state_changed"
            · rw [if_pos h2] at h
              cases hp : parse data with
              | none =>
                  rw [hp] at h
                  have h' := Except.ok.inj h
                  subst h'
                  rfl
              | some j =>
                  rw [hp] at h
                  by_cases h3 : bf = true
                  · rw [if_pos h3] at h
                    have h' := Except.ok.inj h
                    subst h'
                    rfl
                  · rw [if_neg h3] at h
                    have h' := Except.ok.inj h
                    subst h'
                    rfl
            · rw [if_neg h2] at h
              by_cases h4 : channel = "memory.stored"
              · rw [if_pos h4] at h
                have h' := Except.ok.inj h
                subst h'
                rfl
              · rw [if_neg h4] at h
                have h' := Except.ok.inj h
                subst h'
                rfl

theorem dispatchStep_seen (parse : String → Option Json) (bf : Bool)
    (st : DState) (m : RMsg) :
    (dispatchStep parse bf st m).seen = st.seen + 1 := by
  unfold dispatchStep
  by_cases hc : m.msgType ≠ "message" ∧ m.msgType ≠ "pmessage"
  · rw [if_pos hc]
  · rw [if_neg hc]
    cases hh : handleMsg parse bf { st with seen := st.seen + 1 } m with
    | ok s => exact handleMsg_seen parse bf _ m s hh
    | error e => rfl

theorem runDispatch_seen (parse : String → Option Json) (bf : Bool) :
    ∀ (msgs : List RMsg) (st : DState),
      (runDispatch parse bf st msgs).seen = st.seen + msgs.length := by
  intro msgs
  induction msgs with
  | nil => intro st; rfl
  | cons m ms ih =>
      intro st
      show (runDispatch parse bf (dispatchStep parse bf st m) ms).seen = _
      rw [ih (dispatchStep parse bf st m), dispatchStep_seen]
      simp only [List.length_cons]
      omega

/-- C8: the dispatcher loop is never terminated by a single message.  Every
inbound message — including one whose classification or body access raises
and one whose handler fails — completes its iteration (the iteration count
always advances by the full message count); a message with a missing channel
is logged to the error log and otherwise skipped; and after any message the
loop continues with the remaining messages. -/
theorem c8_dispatcher_loop_survives (parse : String → Option Json) (bf : Bool)
    (st : DState) (msgs : List RMsg) (m : RMsg) :
    (runDispatch parse bf st msgs).seen = st.seen + msgs.length
    ∧ (m.msgType = "message" → m.channel = none →
        dispatchStep parse bf st m
          = { st with seen := st.seen + 1, errors := st.errors ++ ["KeyError: channel"] })
    ∧ runDispatch parse bf st (m :: msgs)
        = runDispatch parse bf (dispatchStep parse bf st m) msgs := by
  refine ⟨runDispatch_seen parse bf msgs st, ?_, rfl⟩
  intro hmt hc
  obtain ⟨mt, mc, md⟩ := m
  simp only at hmt hc
  subst hmt
  subst hc
  rfl

/-- Witness for C8: a malformed message (no channel) followed by a reply
message still advances the loop twice, and the malformed one is logged. -/
theorem c8_witness :
    (runDispatch (fun _ => none) false ⟨[], [], [], [], 0⟩
        [⟨"message", none, none⟩,
         ⟨"pmessage", some "language.response.r", some "hi"⟩]).seen = 0 + 2
    ∧ dispatchStep (fun _ => none) false ⟨[], [], [], [], 0⟩ ⟨"message", none, none⟩
        = ⟨[], [], [], ["KeyError: channel"], 1⟩ := by
  constructor
  · exact (c8_dispatcher_loop_survives (fun _ => none) false ⟨[], [], [], [], 0⟩
      [⟨"message", none, none⟩, ⟨"pmessage", some "language.response.r", some "hi"⟩]
      ⟨"message", none, none⟩).1
  · have h := (c8_dispatcher_loop_survives (fun _ => none) false ⟨[], [], [], [], 0⟩
      [] ⟨"message", none, none⟩).2.1 rfl rfl
    rw [h]
    rfl

/-!
## Memory consolidation sweep — _run_consolidation
(memory-manager/main.py lines 107-206)

The Redis working-memory key space is modelled as a dict from
`working_memory:*` key to parsed entry; the scan over a dict's distinct keys
yields each key once (the code deduplicates scan results for exactly this
reason, line 147).  External failures are oracles per key: `unparsable`
(`json.loads(raw)` raises, line 153-156), `epFail` (`_store_episodic`
raises), `semFail` (`_store_semantic` raises, i.e. both the vector store and
its relational fallback failed).  The final `redis.delete` is modelled as
succeeding; its failure path (lines 188-196) merely sets a 5-minute expiry
and is exercised by no claim.  `raiseAt = some n` models an exception thrown
out of the scanning/processing body after `n` keys were handled; it is caught
by the inner `except` (line 203) and the `finally` (lines 205-206) still
deletes the lock key.
-/

/-- `CONSOLIDATION_INTERVAL = 1800` (line 39), seconds between sweeps. -/
def CONSOLIDATION_INTERVAL : Nat := 1800

/-- `_CONSOLIDATION_LOCK_TTL = CONSOLIDATION_INTERVAL + 300` (line 41): the
lock expiry passed to the atomic `SET NX EX`. -/
def CONSOLIDATION_LOCK_TTL : Nat := CONSOLIDATION_INTERVAL + 300

/-- The promotion threshold `0.7` (line 157). -/
def PROMOTION_THRESHOLD : ℚ := mkRat 7 10

/-- A parsed working-memory entry (the JSON stored at lines 89-97). -/
structure WMEntry where
  content : String
  importance : ℚ
  session_id : String
  metadata : Json

/-- A durable record as inserted by `_store_episodic` / `_store_semantic`. -/
structure MemRecord where
  session_id : String
  content : String
  importance : ℚ
  metadata : Json

/-- The state a sweep touches: the ephemeral working store, the two durable
stores, and whether the cluster lock key is present. -/
structure MemState where
  working : List (String × WMEntry)
  episodic : List MemRecord
  semantic : List MemRecord
  lockHeld : Bool

/-- The durable record built from a working entry (lines 162-167). -/
def promoteRecord (e : WMEntry) : MemRecord :=
  ⟨e.session_id, e.content, e.importance, e.metadata⟩

/-- The loop body for one scanned key (lines 149-197): skip absent keys,
unparsable payloads, and entries with importance ≤ 0.7; otherwise write
episodic (on failure keep the entry for the next run), then attempt the
semantic write (failure is non-fatal), then delete the working key. -/
def processKey (epFail semFail unparsable : String → Bool) (st : MemState)
    (key : String) : MemState :=
  match keyLookup st.working key with
  | none => st
  | some e =>
      if unparsable key then st
      else if e.importance ≤ PROMOTION_THRESHOLD then st
      else if epFail key then st
      else
        let st1 := { st with episodic := st.episodic ++ [promoteRecord e] }
        let st2 :=
          if semFail key then st1
          else { st1 with semantic := st1.semantic ++ [promoteRecord e] }
        { st2 with working := keyErase st2.working key }

/-- Processing of the deduplicated scanned keys in order. -/
def runSweep (epFail semFail unparsable : String → Bool) (st : MemState)
    (keys : List String) : MemState :=
  keys.foldl (processKey epFail semFail unparsable) st

/-- `_run_consolidation` (lines 113-206): acquire the lock with an atomic
set-if-absent; on failure return at once; otherwise scan and process
(`raiseAt` cutting the run short when the body raises) and delete the lock
key in the `finally`. -/
def runConsolidation (epFail semFail unparsable : String → Bool)
    (raiseAt : Option Nat) (st : MemState) : MemState :=
  if st.lockHeld then st
  else
    let st1 : MemState := { st with lockHeld := true }
    let keys := st1.working.map Prod.fst
    let keys2 := match raiseAt with
      | none => keys
      | some n => keys.take n
    let st2 := runSweep epFail semFail unparsable st1 keys2
    { st2 with lockHeld := false }

theorem keyLookup_processKey_ne (epFail semFail unparsable : String → Bool)
    (st : MemState) (key k : String) (h : k ≠ key) :
    keyLookup (processKey epFail semFail unparsable st key).working k
      = keyLookup st.working k := by
  unfold processKey
  cases keyLookup st.working key with
  | none => rfl
  | some e =>
      dsimp only
      by_cases h1 : unparsable key = true
      · rw [if_pos h1]
      · rw [if_neg h1]
        by_cases h2 : e.importance ≤ PROMOTION_THRESHOLD
        · rw [if_pos h2]
        · rw [if_neg h2]
          by_cases h3 : epFail key = true
          · rw [if_pos h3]
          · rw [if_neg h3]
            by_cases h4 : semFail key = true
            · rw [if_pos h4]
              exact keyLookup_keyErase_ne st.working key k h
            · rw [if_neg h4]
              exact keyLookup_keyErase_ne st.working key k h

theorem episodic_processKey_mono (epFail semFail unparsable : String → Bool)
    (st : MemState) (key : String) (r : MemRecord) (hr : r ∈ st.episodic) :
    r ∈ (processKey epFail semFail unparsable st key).episodic := by
  unfold processKey
  cases keyLookup st.working key with
  | none => exact hr
  | some e =>
      dsimp only
      by_cases h1 : unparsable key = true
      · rw [if_pos h1]; exact hr
      · rw [if_neg h1]
        by_cases h2 : e.importance ≤ PROMOTION_THRESHOLD
        · rw [if_pos h2]; exact hr
        · rw [if_neg h2]
          by_cases h3 : epFail key = true
          · rw [if_pos h3]; exact hr
          · rw [if_neg h3]
            by_cases h4 : semFail key = true
            · rw [if_pos h4]
              exact List.mem_append.mpr (Or.inl hr)
            · rw [if_neg h4]
              exact List.mem_append.mpr (Or.inl hr)

theorem working_none_processKey (epFail semFail unparsable : String → Bool)
    (st : MemState) (key k : String)
    (h : keyLookup st.working k = none) :
    keyLookup (processKey epFail semFail unparsable st key).working k = none := by
  by_cases hk : k = key
  · subst hk
    unfold processKey
    rw [h]
    exact h
  · rw [keyLookup_processKey_ne epFail semFail unparsable st key k hk]
    exact h

theorem processKey_promotes (epFail semFail unparsable : String → Bool)
    (st : MemState) (k : String) (e : WMEntry)
    (hlook : keyLookup st.working k = some e)
    (himp : PROMOTION_THRESHOLD < e.importance)
    (hunp : unparsable k = false) (hep : epFail k = false) :
    (processKey epFail semFail unparsable st k).episodic
        = st.episodic ++ [promoteRecord e]
    ∧ keyLookup (processKey epFail semFail unparsable st k).working k = none := by
  unfold processKey
  rw [hlook]
  dsimp only
  rw [if_neg (by rw [hunp]; exact Bool.false_ne_true)]
  rw [if_neg (not_le.mpr himp)]
  rw [if_neg (by rw [hep]; exact Bool.false_ne_true)]
  by_cases h4 : semFail k = true
  · rw [if_pos h4]
    exact ⟨rfl, keyLookup_keyErase _ k⟩
  · rw [if_neg h4]
    exact ⟨rfl, keyLookup_keyErase _ k⟩

theorem processKey_skips_low (epFail semFail unparsable : String → Bool)
    (st : MemState) (k : String) (e : WMEntry)
    (hlook : keyLookup st.working k = some e)
    (himp : e.importance ≤ PROMOTION_THRESHOLD)
    (hunp : unparsable k = false) :
    processKey epFail semFail unparsable st k = st := by
  unfold processKey
  rw [hlook]
  dsimp only
  rw [if_neg (by rw [hunp]; exact Bool.false_ne_true)]
  rw [if_pos himp]

theorem processKey_episodic_failure (epFail semFail unparsable : String → Bool)
    (st : MemState) (k : String) (hep : epFail k = true) :
    processKey epFail semFail unparsable st k = st := by
  unfold processKey
  cases keyLookup st.working k with
  | none => rfl
  | some e =>
      dsimp only
      by_cases h1 : unparsable k = true
      · rw [if_pos h1]
      · rw [if_neg h1]
        by_cases h2 : e.importance ≤ PROMOTION_THRESHOLD
        · rw [if_pos h2]
        · rw [if_neg h2]
          rw [if_pos hep]

theorem runSweep_working_none (epFail semFail unparsable : String → Bool) :
    ∀ (keys : List String) (st : MemState) (k : String),
      keyLookup st.working k = none →
      keyLookup (runSweep epFail semFail unparsable st keys).working k = none := by
  intro keys
  induction keys with
  | nil => intro st k h; exact h
  | cons key keys ih =>
      intro st k h
      exact ih (processKey epFail semFail unparsable st key) k
        (working_none_processKey epFail semFail unparsable st key k h)

theorem runSweep_episodic_mono (epFail semFail unparsable : String → Bool) :
    ∀ (keys : List String) (st : MemState) (r : MemRecord),
      r ∈ st.episodic →
      r ∈ (runSweep epFail semFail unparsable st keys).episodic := by
  intro keys
  induction keys with
  | nil => intro st r h; exact h
  | cons key keys ih =>
      intro st r h
      exact ih (processKey epFail semFail unparsable st key) r
        (episodic_processKey_mono epFail semFail unparsable st key r h)

theorem runSweep_preserves_entry (epFail semFail unparsable : String → Bool) :
    ∀ (keys : List String) (st : MemState) (k : String) (e : WMEntry),
      keyLookup st.working k = some e →
      (∀ st' : MemState, keyLookup st'.working k = some e →
        processKey epFail semFail unparsable st' k = st') →
      keyLookup (runSweep epFail semFail unparsable st keys).working k = some e := by
  intro keys
  induction keys with
  | nil => intro st k e h _; exact h
  | cons key keys ih =>
      intro st k e h hskip
      by_cases hkey : key = k
      · subst hkey
        have hid := hskip st h
        show keyLookup (runSweep epFail semFail unparsable
          (processKey epFail semFail unparsable st key) keys).working key = some e
        rw [hid]
        exact ih st key e h hskip
      · have h' : keyLookup (processKey epFail semFail unparsable st key).working k
            = some e := by
          rw [keyLookup_processKey_ne epFail semFail unparsable st key k
            (fun he => hkey he.symm)]
          exact h
        exact ih (processKey epFail semFail unparsable st key) k e h' hskip

theorem runSweep_promotes (epFail semFail unparsable : String → Bool) :
    ∀ (keys : List String) (st : MemState) (k : String) (e : WMEntry),
      k ∈ keys →
      keyLookup st.working k = some e →
      PROMOTION_THRESHOLD < e.importance →
      unparsable k = false → epFail k = false →
      promoteRecord e ∈ (runSweep epFail semFail unparsable st keys).episodic
      ∧ keyLookup (runSweep epFail semFail unparsable st keys).working k = none := by
  intro keys
  induction keys with
  | nil => intro st k e hk; cases hk
  | cons key keys ih =>
      intro st k e hk hlook himp hunp hep
      by_cases hkey : key = k
      · subst hkey
        have hp := processKey_promotes epFail semFail unparsable st key e
          hlook himp hunp hep
        constructor
        · apply runSweep_episodic_mono epFail semFail unparsable keys _ _
          rw [hp.1]
          exact List.mem_append.mpr (Or.inr (List.mem_singleton.mpr rfl))
        · exact runSweep_working_none epFail semFail unparsable keys _ key hp.2
      · rcases List.mem_cons.mp hk with heq | hrest
        · exact absurd heq.symm hkey
        · have hlook' : keyLookup (processKey epFail semFail unparsable st key).working k
              = some e := by
            rw [keyLookup_processKey_ne epFail semFail unparsable st key k
              (fun he => hkey he.symm)]
            exact hlook
          exact ih (processKey epFail semFail unparsable st key) k e hrest hlook'
            himp hunp hep

/-- C6: the sweep acquires the cluster lock with an atomic set-if-absent
whose expiry exceeds the sweep interval; a failed acquisition returns at once
with the state — including the concurrent holder's lock key — completely
untouched (no scanning, no processing, no lock deletion); a successful
acquisition always ends with the lock key deleted, for every run — including
every run cut short by an exception during scanning or processing
(`raiseAt = some n`). -/
theorem c6_consolidation_lock (epFail semFail unparsable : String → Bool)
    (raiseAt : Option Nat) (st : MemState) :
    (st.lockHeld = true →
      runConsolidation epFail semFail unparsable raiseAt st = st)
    ∧ (st.lockHeld = false →
        (runConsolidation epFail semFail unparsable raiseAt st).lockHeld = false)
    ∧ CONSOLIDATION_INTERVAL < CONSOLIDATION_LOCK_TTL := by
  refine ⟨?_, ?_, by decide⟩
  · intro h
    unfold runConsolidation
    rw [if_pos h]
  · intro h
    unfold runConsolidation
    rw [if_neg (by rw [h]; exact Bool.false_ne_true)]

/-- Witness for C6: a sweep starting while the lock is held changes nothing;
a sweep that acquires the lock and then raises immediately (`some 0`) still
ends with the lock released. -/
theorem c6_witness :
    runConsolidation (fun _ => false) (fun _ => false) (fun _ => false) (some 0)
        ⟨[], [], [], true⟩ = ⟨[], [], [], true⟩
    ∧ (runConsolidation (fun _ => false) (fun _ => false) (fun _ => false) (some 0)
        ⟨[("working_memory:a", ⟨"x", mkRat 9 10, "s", Json.obj []⟩)], [], [],
          false⟩).lockHeld = false := by
  constructor
  · exact (c6_consolidation_lock (fun _ => false) (fun _ => false) (fun _ => false)
      (some 0) ⟨[], [], [], true⟩).1 rfl
  · exact (c6_consolidation_lock (fun _ => false) (fun _ => false) (fun _ => false)
      (some 0) ⟨[("working_memory:a", ⟨"x", mkRat 9 10, "s", Json.obj []⟩)], [], [],
        false⟩).2.1 rfl

/-- C5: in one full consolidation sweep (lock free, no exception), a working
entry with importance strictly above 0.7 is written to durable episodic
storage and its key is removed from the ephemeral store; an entry with
importance at most 0.7 is left untouched; and an entry whose durable episodic
write fails survives unchanged in the ephemeral store for the next sweep. -/
theorem c5_consolidation_promotion (epFail semFail unparsable : String → Bool)
    (st : MemState) (k : String) (e : WMEntry)
    (hlock : st.lockHeld = false)
    (hlook : keyLookup st.working k = some e)
    (hunp : unparsable k = false) :
    (PROMOTION_THRESHOLD < e.importance → epFail k = false →
      promoteRecord e ∈ (runConsolidation epFail semFail unparsable none st).episodic
      ∧ keyLookup (runConsolidation epFail semFail unparsable none st).working k
          = none)
    ∧ (e.importance ≤ PROMOTION_THRESHOLD →
        keyLookup (runConsolidation epFail semFail unparsable none st).working k
          = some e)
    ∧ (epFail k = true →
        keyLookup (runConsolidation epFail semFail unparsable none st).working k
          = some e) := by
  have hrw : runConsolidation epFail semFail unparsable none st
      = { runSweep epFail semFail unparsable { st with lockHeld := true }
            (st.working.map Prod.fst) with lockHeld := false } := by
    unfold runConsolidation
    rw [if_neg (by rw [hlock]; exact Bool.false_ne_true)]
  have hk : k ∈ st.working.map Prod.fst :=
    List.mem_map.mpr ⟨(k, e), keyLookup_mem st.working k e hlook, rfl⟩
  refine ⟨?_, ?_, ?_⟩
  · intro himp hep
    rw [hrw]
    have h := runSweep_promotes epFail semFail unparsable (st.working.map Prod.fst)
      { st with lockHeld := true } k e hk hlook himp hunp hep
    exact ⟨h.1, h.2⟩
  · intro himp
    rw [hrw]
    exact runSweep_preserves_entry epFail semFail unparsable (st.working.map Prod.fst)
      { st with lockHeld := true } k e hlook
      (fun st' hl => processKey_skips_low epFail semFail unparsable st' k e hl himp hunp)
  · intro hep
    rw [hrw]
    exact runSweep_preserves_entry epFail semFail unparsable (st.working.map Prod.fst)
      { st with lockHeld := true } k e hlook
      (fun st' _ => processKey_episodic_failure epFail semFail unparsable st' k hep)

/-- Witness for C5 on concrete stores: importance 0.71 is promoted and its
key removed; importance 0.70 is left in place; with a failing episodic write
the 0.71 entry survives unchanged. -/
theorem c5_witness :
    (promoteRecord ⟨"hi", mkRat 71 100, "s", Json.obj []⟩
        ∈ (runConsolidation (fun _ => false) (fun _ => false) (fun _ => false) none
            ⟨[("working_memory:a", ⟨"hi", mkRat 71 100, "s", Json.obj []⟩)],
              [], [], false⟩).episodic
      ∧ keyLookup (runConsolidation (fun _ => false) (fun _ => false) (fun _ => false)
            none ⟨[("working_memory:a", ⟨"hi", mkRat 71 100, "s", Json.obj []⟩)],
              [], [], false⟩).working "working_memory:a" = none)
    ∧ keyLookup (runConsolidation (fun _ => false) (fun _ => false) (fun _ => false)
          none ⟨[("working_memory:b", ⟨"lo", mkRat 7 10, "s", Json.obj []⟩)],
            [], [], false⟩).working "working_memory:b"
        = some ⟨"lo", mkRat 7 10, "s", Json.obj []⟩
    ∧ keyLookup (runConsolidation (fun _ => true) (fun _ => false) (fun _ => false)
          none ⟨[("working_memory:a", ⟨"hi", mkRat 71 100, "s", Json.obj []⟩)],
            [], [], false⟩).working "working_memory:a"
        = some ⟨"hi", mkRat 71 100, "s", Json.obj []⟩ := by
  refine ⟨?_, ?_, ?_⟩
  · exact (c5_consolidation_promotion (fun _ => false) (fun _ => false) (fun _ => false)
      ⟨[("working_memory:a", ⟨"hi", mkRat 71 100, "s", Json.obj []⟩)], [], [], false⟩
      "working_memory:a" ⟨"hi", mkRat 71 100, "s", Json.obj []⟩ rfl rfl rfl).1
      (by decide) rfl
  · exact (c5_consolidation_promotion (fun _ => false) (fun _ => false) (fun _ => false)
      ⟨[("working_memory:b", ⟨"lo", mkRat 7 10, "s", Json.obj []⟩)], [], [], false⟩
      "working_memory:b" ⟨"lo", mkRat 7 10, "s", Json.obj []⟩ rfl rfl rfl).2.1
      (by decide)
  · exact (c5_consolidation_promotion (fun _ => true) (fun _ => false) (fun _ => false)
      ⟨[("working_memory:a", ⟨"hi", mkRat 71 100, "s", Json.obj []⟩)], [], [], false⟩
      "working_memory:a" ⟨"hi", mkRat 71 100, "s", Json.obj []⟩ rfl rfl rfl).2.2 rfl
